import Mathlib

/-!
Shallow embedding of `pipeline.py`: the `Pipeline` orchestrator of the
liver-cancer embedding pipeline.  Covered are `generate_data` (stratified
train/test split, CSV persistence of the split, clinical and image embedding
generation) and `run_cross_validation` (k-fold splitting, per-fold embedding
persistence, and the metric-averaging step).

External collaborators that are not among the sources
(`DataPreprocessing`, `ClinicalDataEmbeddings`, `PNGDataset`/`QCNN`) are
modelled from the spec, as noted on each definition.  The scikit-learn
splitting routines (`train_test_split` with `stratify=`, `KFold`) are
modelled after their algorithm: exact per-class allocation arithmetic and
guard conditions, with the seeded pseudo-random stream abstracted by a fixed
deterministic key function of the seed (numpy's MT19937 stream is likewise a
pure function of the seed; no theorem depends on which permutation the
stream produces, only on it being a seed-determined permutation).
-/

namespace Pipeline

/-- One patient's numeric clinical feature row (a row of the preprocessed table). -/
abbrev Feat := List Int

/-- Binary label from the target column `Censored_0_progressed_1`. -/
abbrev Lbl := Bool

/-- Patient identifier from the `TCIA_ID` column. -/
abbrev PatientId := String

/-- Modelled from the spec: the result of `DataPreprocessing.preprocesses_data`
(`src/pvem/clinical_data_embeddings.py` is not among the sources) — aligned
parallel lists of features, labels and ids, one entry per patient. -/
structure Population where
  data : List Feat
  labels : List Lbl
  ids : List PatientId
deriving DecidableEq

/-- Deterministic stand-in for the seeded numpy random stream: a linear
congruential hash of seed and value. -/
def rngKey (seed i : Nat) : Nat :=
  (1103515245 * (seed + 1) * (i + 7) + 12345) % 4294967296

/-- Seeded pseudo-random permutation of a list of indices (stand-in for
`rng.permutation` / `rng.shuffle`): stable sort by the seeded hash key. -/
def shuffle (seed : Nat) (l : List Nat) : List Nat :=
  List.insertionSort (fun a b => rngKey seed a ≤ rngKey seed b) l

/-- The positions `start, start+1, …` of `labels` that hold class `c`,
starting the position count at `start`. -/
def classIndicesFrom (labels : List Lbl) (c : Lbl) (start : Nat) : List Nat :=
  match labels with
  | [] => []
  | b :: rest =>
    if b = c then start :: classIndicesFrom rest c (start + 1)
    else classIndicesFrom rest c (start + 1)

/-- The positions in `labels` holding class `c` (`np.where(y == c)` order). -/
def classIndices (labels : List Lbl) (c : Lbl) : List Nat :=
  classIndicesFrom labels c 0

/-- Floor of the proportional per-class allocation `m * nDraws / total`,
paired with the division remainder (the floored continuous part of
`sklearn.utils._approximate_mode`). -/
def flooredAlloc (counts : List Nat) (nDraws total : Nat) : List (Nat × Nat) :=
  counts.map (fun m => (m * nDraws / total, m * nDraws % total))

/-- Hand the `need` leftover draws to classes with a nonzero remainder, one
each, in list order — a deterministic stand-in for `_approximate_mode`'s
largest-remainder rule, whose tie-breaking is randomized; the claims below
never depend on which remainder classes receive the leftovers. -/
def addRemainder : List (Nat × Nat) → Nat → List Nat
  | [], _ => []
  | (f, r) :: rest, need =>
    if 0 < need && 0 < r then (f + 1) :: addRemainder rest (need - 1)
    else f :: addRemainder rest need

/-- Per-class draw counts for `nDraws` draws out of classes of sizes
`counts` summing to `total` (`sklearn.utils._approximate_mode`). -/
def approxMode (counts : List Nat) (nDraws total : Nat) : List Nat :=
  addRemainder (flooredAlloc counts nDraws total)
    (nDraws - ((flooredAlloc counts nDraws total).map Prod.fst).sum)

/-- `ceil(test_size * n)` for `test_size=0.2`, computed exactly as
`⌈n/5⌉` (for the population sizes appearing in the claims the float
product `0.2 * n` rounds to the exact value, so the float and exact
ceilings agree). -/
def nTestOf (n : Nat) : Nat := (n + 4) / 5

/-- Complementary train-set size (`train_size=None` in `train_test_split`). -/
def nTrainOf (n : Nat) : Nat := n - nTestOf n

/-- The distinct label classes, in first-occurrence order (`np.unique`
sorts instead; no claim depends on the class order). -/
def classesOf (labels : List Lbl) : List Lbl := labels.dedup

/-- Number of members of each label class. -/
def classCounts (labels : List Lbl) : List Nat :=
  (classesOf labels).map (fun c => labels.count c)

/-- The guards of `StratifiedShuffleSplit`: every class needs at least two
members, and each of train and test needs at least one slot per class. -/
def splitOk (labels : List Lbl) : Bool :=
  !(classCounts labels).any (fun m => m < 2) &&
    decide ((classesOf labels).length ≤ nTrainOf labels.length) &&
    decide ((classesOf labels).length ≤ nTestOf labels.length)

/-- Per-class `(class, number of its members drawn into train)` pairs. -/
def classAlloc (labels : List Lbl) : List (Lbl × Nat) :=
  (classesOf labels).zip
    (approxMode (classCounts labels) (nTrainOf labels.length) labels.length)

/-- Train indices of `StratifiedShuffleSplit`: per class, a seeded
permutation of the class's positions, of which the first `alloc` go to
train; the concatenation is permuted once more, as the library does. -/
def trainIdxOf (labels : List Lbl) (seed : Nat) : List Nat :=
  shuffle (seed + 1)
    ((classAlloc labels).map
      (fun p => (shuffle (seed + 3) (classIndices labels p.1)).take p.2)).flatten

/-- Test indices of `StratifiedShuffleSplit`: the complementary members of
each class (with `train_size=None` the per-class test allocation is exactly
the class remainder). -/
def testIdxOf (labels : List Lbl) (seed : Nat) : List Nat :=
  shuffle (seed + 2)
    ((classAlloc labels).map
      (fun p => (shuffle (seed + 3) (classIndices labels p.1)).drop p.2)).flatten

/-- Failure of the stratified splitter.  scikit-learn raises `ValueError`
here; the spec's error taxonomy names the condition
`InsufficientSamplesError`. -/
inductive SplitError where
  | insufficientSamples
deriving DecidableEq

/-- Result of the index-level split. -/
structure SplitIdx where
  trainIdx : List Nat
  testIdx : List Nat
deriving DecidableEq

/-- Index-level `StratifiedShuffleSplit(n_splits=1, test_size=0.2)` as used
by `train_test_split(..., stratify=patient_labels)` in
`Pipeline.generate_data`. -/
def stratifiedSplitIdx (labels : List Lbl) (seed : Nat) : Except SplitError SplitIdx :=
  if splitOk labels then .ok ⟨trainIdxOf labels seed, testIdxOf labels seed⟩
  else .error .insufficientSamples

/-- `_safe_indexing`: the rows of `l` at positions `idx` (positions produced
by the splitter are in range; `d` is a dummy default). -/
def select (l : List α) (d : α) (idx : List Nat) : List α :=
  idx.map (fun i => l.getD i d)

/-- The six outputs of the `train_test_split` call on
(`patient_data`, `patient_labels`, `patient_ids`). -/
structure SplitData where
  trainData : List Feat
  testData : List Feat
  trainLabels : List Lbl
  testLabels : List Lbl
  trainIds : List PatientId
  testIds : List PatientId
deriving DecidableEq

/-- `pipeline.py` lines 33–35: `train_test_split(patient_data,
patient_labels, patient_ids, test_size=0.2, random_state=42,
stratify=patient_labels)` — all three parallel lists are indexed by the
same train/test index lists. -/
def train_test_split (p : Population) (seed : Nat) : Except SplitError SplitData :=
  (stratifiedSplitIdx p.labels seed).map (fun s =>
    { trainData := select p.data [] s.trainIdx
      testData := select p.data [] s.testIdx
      trainLabels := select p.labels false s.trainIdx
      testLabels := select p.labels false s.testIdx
      trainIds := select p.ids "" s.trainIdx
      testIds := select p.ids "" s.testIdx })

/-- Modelled from the spec: `ClinicalDataEmbeddings` (its module is not
among the sources) is an opaque embedding service; its fit state is
whatever `train_model` extracts from the training features and labels. -/
structure ClinicalModel where
  fitData : List Feat
  fitLabels : List Lbl
deriving DecidableEq

/-- Modelled from the spec: `ClinicalDataEmbeddings.train_model(train_data,
train_labels)` — fits the embedding model on the given features and labels. -/
def train_model (d : List Feat) (l : List Lbl) : ClinicalModel := ⟨d, l⟩

/-- Modelled from the spec: the embedding of one feature row under a fitted
model — an opaque deterministic function of the fit state and the row. -/
def embedRow (m : ClinicalModel) (x : Feat) : List Int :=
  (m.fitData.length : Int) :: (m.fitLabels.count true : Int) :: x

/-- Modelled from the spec:
`ClinicalDataEmbeddings.generate_and_save_embeddings(rows, …)` — one
embedding row per input row, in input row order. -/
def generate_embeddings (m : ClinicalModel) (rows : List Feat) : List (List Int) :=
  rows.map (embedRow m)

/-- `pipeline.py` lines 52–56: fit the clinical embedding model on the
train split, then generate train and test embeddings with the fitted
model.  Returns (fitted model, train embeddings, test embeddings). -/
def clinicalEmbeddingStage (s : SplitData) :
    ClinicalModel × List (List Int) × List (List Int) :=
  (train_model s.trainData s.trainLabels,
   generate_embeddings (train_model s.trainData s.trainLabels) s.trainData,
   generate_embeddings (train_model s.trainData s.trainLabels) s.testData)

/-- Modelled from the spec: the per-patient quantum-circuit image embedding
produced by `QCNN.process_and_save_embeddings` (its module is not among the
sources) — an opaque deterministic function of the patient id. -/
def imageEmbed (pid : PatientId) : List Int :=
  [(pid.length : Int)]

/-- Code-point lexicographic comparison of character lists — the order
Python's `sorted()` uses on strings. -/
def charsLe : List Char → List Char → Bool
  | [], _ => true
  | _ :: _, [] => false
  | a :: as, b :: bs => if a = b then charsLe as bs else decide (a < b)

/-- Code-point lexicographic comparison of patient ids. -/
def pidLe (a b : PatientId) : Bool := charsLe a.data b.data

/-- `sorted(...)` on patient ids. -/
def sortIds (keys : List PatientId) : List PatientId :=
  List.insertionSort (fun a b => pidLe a b = true) keys

/-- `pipeline.py` lines 63–66: the image-modality id split —
`all_patient_ids = sorted(list(png_dataset.data.keys()))`, then
`train = all[:len//2]`, `test = all[len//2:]`. -/
def imageIdSplit (keys : List PatientId) : List PatientId × List PatientId :=
  ((sortIds keys).take ((sortIds keys).length / 2),
   (sortIds keys).drop ((sortIds keys).length / 2))

/-- The modality selector `--data_type`. -/
inductive DataType where
  | clinical
  | image
  | both
deriving DecidableEq

/-- The CLI arguments `generate_data` consults. -/
structure Args where
  use_pregen : Bool
  data_type : DataType
deriving DecidableEq

/-- The artifacts `generate_data` persists: four CSV tables (always written
when generation runs) and the per-modality embedding arrays (written only
when the modality is selected, hence `Option`). -/
structure GenOutputs where
  train_data_csv : List Feat
  train_labels_csv : List (PatientId × Lbl)
  test_data_csv : List Feat
  test_labels_csv : List (PatientId × Lbl)
  clinical_train_emb : Option (List (List Int))
  clinical_test_emb : Option (List (List Int))
  image_train_emb : Option (List (List Int))
  image_test_emb : Option (List (List Int))
deriving DecidableEq

/-- `Pipeline.generate_data` (lines 19–73): skip everything under
`use_pregen`; otherwise split the clinical population (seed 42), write the
four CSV artifacts, and generate clinical and/or image embeddings according
to `data_type`.  `pop` stands for the preprocessed clinical table and
`pngKeys` for `png_dataset.data.keys()`.  `none` means no artifact was
written. -/
def generate_data (args : Args) (pop : Population) (pngKeys : List PatientId) :
    Except SplitError (Option GenOutputs) :=
  if args.use_pregen then .ok none
  else
    (train_test_split pop 42).map (fun s =>
      some
        { train_data_csv := s.trainData
          train_labels_csv := s.trainIds.zip s.trainLabels
          test_data_csv := s.testData
          test_labels_csv := s.testIds.zip s.testLabels
          clinical_train_emb :=
            if args.data_type = .both ∨ args.data_type = .clinical then
              some ((clinicalEmbeddingStage s).2.1)
            else none
          clinical_test_emb :=
            if args.data_type = .both ∨ args.data_type = .clinical then
              some ((clinicalEmbeddingStage s).2.2)
            else none
          image_train_emb :=
            if args.data_type = .both ∨ args.data_type = .image then
              some (((imageIdSplit pngKeys).1).map imageEmbed)
            else none
          image_test_emb :=
            if args.data_type = .both ∨ args.data_type = .image then
              some (((imageIdSplit pngKeys).2).map imageEmbed)
            else none })

/-- `KFold` fold sizes: the first `n % k` folds have `n / k + 1` members,
the rest `n / k`. -/
def foldSizes (n k : Nat) : List Nat :=
  List.replicate (n % k) (n / k + 1) ++ List.replicate (k - n % k) (n / k)

/-- Cut `l` into consecutive chunks of the given sizes. -/
def chunks : List Nat → List Nat → List (List Nat)
  | [], _ => []
  | s :: rest, l => l.take s :: chunks rest (l.drop s)

/-- The validation-index folds of
`KFold(n_splits=k, shuffle=True, random_state=seed).split(...)` over `n`
samples: consecutive chunks of a seeded permutation of `0..n-1`.  `none`
models the library's `ValueError` when `k < 2` or `k > n`. -/
def kfoldValFolds (n k seed : Nat) : Option (List (List Nat)) :=
  if 2 ≤ k ∧ k ≤ n then some (chunks (foldSizes n k) (shuffle seed (List.range n)))
  else none

/-- A per-fold metrics record (`{"c_index": …, "accuracy": …}`). -/
abbrev Metrics := List (String × Int)

/-- Outcome of the metric-averaging step at the end of
`run_cross_validation`.  The constructors name the observable results: a
computed average table, or the Python exception the step raises.
`aggregationError` is the spec's `AggregationError`; the code has no path
producing it — it is present so that statements about the step can mention
it. -/
inductive CVOutcome where
  | ok (avgs : List (String × Int))
  | aggregationError
  | indexError
deriving DecidableEq

/-- `pipeline.py` lines 113–116: `for metric in fold_metrics[0].keys(): …
sum(fold[metric] for fold in fold_metrics) / k`.  On an empty collection,
`fold_metrics[0]` raises `IndexError`; otherwise each metric named by the
first record is averaged (dict lookups defaulted — the value arithmetic is
not load-bearing for any claim). -/
def averageMetrics (fold_metrics : List Metrics) (k : Nat) : CVOutcome :=
  match fold_metrics with
  | [] => .indexError
  | m0 :: _ =>
    .ok (m0.map (fun kv =>
      (kv.1,
       (fold_metrics.map
          (fun fm => (((fm.find? (fun q => q.1 == kv.1)).map Prod.snd).getD 0))).sum
         / (k : Int))))

/-- The artifacts persisted for one cross-validation fold:
`fold_{i}_train_embeddings.npy` and `fold_{i}_val_embeddings.npy`. -/
structure FoldArtifacts where
  trainEmb : List (List Int)
  valEmb : List (List Int)
deriving DecidableEq

/-- `Pipeline.run_cross_validation(k=5)` (lines 75–116): k-fold split of
the clinical population (seed 42), a fresh embedding model fit per fold on
the fold's train portion, per-fold embedding arrays persisted, then the
metric-averaging step — over a `fold_metrics` list that is never appended
to (the appending statement at line 110 is commented out), so the
averaging always runs on the empty collection. -/
def run_cross_validation (pop : Population) (k : Nat) :
    Option (List FoldArtifacts × CVOutcome) :=
  (kfoldValFolds pop.data.length k 42).map (fun folds =>
    (folds.map (fun valIdx =>
      { trainEmb :=
          generate_embeddings
            (train_model
              (select pop.data []
                ((List.range pop.data.length).filter (fun i => !valIdx.contains i)))
              (select pop.labels false
                ((List.range pop.data.length).filter (fun i => !valIdx.contains i))))
            (select pop.data []
              ((List.range pop.data.length).filter (fun i => !valIdx.contains i)))
        valEmb :=
          generate_embeddings
            (train_model
              (select pop.data []
                ((List.range pop.data.length).filter (fun i => !valIdx.contains i)))
              (select pop.labels false
                ((List.range pop.data.length).filter (fun i => !valIdx.contains i))))
            (select pop.data [] valIdx) }),
     averageMetrics ([] : List Metrics) k))

/-! ### Basic lemmas about the splitting machinery -/

theorem shuffle_perm (seed : Nat) (l : List Nat) : List.Perm (shuffle seed l) l :=
  List.perm_insertionSort _ l

theorem length_shuffle (seed : Nat) (l : List Nat) : (shuffle seed l).length = l.length :=
  (shuffle_perm seed l).length_eq

theorem mem_shuffle {seed : Nat} {l : List Nat} {x : Nat} :
    x ∈ shuffle seed l ↔ x ∈ l :=
  (shuffle_perm seed l).mem_iff

theorem le_and_getElem?_of_mem_classIndicesFrom (labels : List Lbl) (c : Lbl) :
    ∀ s i, i ∈ classIndicesFrom labels c s → s ≤ i ∧ labels[i - s]? = some c := by
  induction labels with
  | nil => intro s i h; simp [classIndicesFrom] at h
  | cons b rest ih =>
    intro s i h
    by_cases hb : b = c
    · rw [classIndicesFrom, if_pos hb] at h
      rcases List.mem_cons.mp h with h1 | h1
      · subst h1; simp [hb]
      · obtain ⟨hle, hget⟩ := ih (s + 1) i h1
        refine ⟨by omega, ?_⟩
        have he : i - s = (i - (s + 1)) + 1 := by omega
        rw [he]
        simpa using hget
    · rw [classIndicesFrom, if_neg hb] at h
      obtain ⟨hle, hget⟩ := ih (s + 1) i h
      refine ⟨by omega, ?_⟩
      have he : i - s = (i - (s + 1)) + 1 := by omega
      rw [he]
      simpa using hget

theorem getElem?_of_mem_classIndices (labels : List Lbl) (c : Lbl) (i : Nat)
    (h : i ∈ classIndices labels c) : labels[i]? = some c := by
  have h2 := (le_and_getElem?_of_mem_classIndicesFrom labels c 0 i h).2
  simpa using h2

theorem lt_length_of_mem_classIndices (labels : List Lbl) (c : Lbl) (i : Nat)
    (h : i ∈ classIndices labels c) : i < labels.length := by
  have h2 := getElem?_of_mem_classIndices labels c i h
  exact (List.getElem?_eq_some_iff.mp h2).1

theorem length_classIndicesFrom (labels : List Lbl) (c : Lbl) :
    ∀ s, (classIndicesFrom labels c s).length = labels.count c := by
  induction labels with
  | nil => intro s; simp [classIndicesFrom]
  | cons b rest ih =>
    intro s
    by_cases hb : b = c
    · rw [classIndicesFrom, if_pos hb, List.length_cons, ih (s + 1)]
      subst hb
      simp [List.count_cons]
    · rw [classIndicesFrom, if_neg hb, ih (s + 1)]
      simp [List.count_cons, hb]

theorem length_classIndices (labels : List Lbl) (c : Lbl) :
    (classIndices labels c).length = labels.count c :=
  length_classIndicesFrom labels c 0

theorem nodup_classIndicesFrom (labels : List Lbl) (c : Lbl) :
    ∀ s, (classIndicesFrom labels c s).Nodup := by
  induction labels with
  | nil => intro s; simp [classIndicesFrom]
  | cons b rest ih =>
    intro s
    by_cases hb : b = c
    · rw [classIndicesFrom, if_pos hb]
      refine List.nodup_cons.mpr ⟨?_, ih (s + 1)⟩
      intro hmem
      have h2 := (le_and_getElem?_of_mem_classIndicesFrom rest c (s + 1) s hmem).1
      omega
    · rw [classIndicesFrom, if_neg hb]
      exact ih (s + 1)

theorem nodup_classIndices (labels : List Lbl) (c : Lbl) :
    (classIndices labels c).Nodup :=
  nodup_classIndicesFrom labels c 0

theorem length_addRemainder :
    ∀ (l : List (Nat × Nat)) (need : Nat), (addRemainder l need).length = l.length := by
  intro l
  induction l with
  | nil => intro need; rfl
  | cons p rest ih =>
    intro need
    rcases p with ⟨f, r⟩
    rw [addRemainder]
    split
    · simp [ih]
    · simp [ih]

theorem length_approxMode (counts : List Nat) (d t : Nat) :
    (approxMode counts d t).length = counts.length := by
  rw [approxMode, length_addRemainder, flooredAlloc, List.length_map]

theorem length_classCounts (labels : List Lbl) :
    (classCounts labels).length = (classesOf labels).length := by
  rw [classCounts, List.length_map]

theorem map_fst_classAlloc (labels : List Lbl) :
    (classAlloc labels).map Prod.fst = classesOf labels := by
  apply List.map_fst_zip
  rw [length_approxMode, length_classCounts]

theorem fst_mem_classesOf_of_mem_classAlloc (labels : List Lbl) (p : Lbl × Nat)
    (h : p ∈ classAlloc labels) : p.1 ∈ classesOf labels :=
  (List.of_mem_zip h).1

theorem eq_of_mem_of_fst_eq {α β : Type} :
    ∀ (l : List (α × β)), (l.map Prod.fst).Nodup →
      ∀ p ∈ l, ∀ q ∈ l, p.1 = q.1 → p = q := by
  intro l
  induction l with
  | nil => intro _ p hp; simp at hp
  | cons x rest ih =>
    intro hn p hp q hq hfst
    rw [List.map_cons, List.nodup_cons] at hn
    rcases List.mem_cons.mp hp with rfl | hp1
    · rcases List.mem_cons.mp hq with rfl | hq1
      · rfl
      · exact absurd (hfst ▸ List.mem_map_of_mem Prod.fst hq1) hn.1
    · rcases List.mem_cons.mp hq with rfl | hq1
      · exact absurd (hfst ▸ List.mem_map_of_mem Prod.fst hp1) hn.1
      · exact ih hn.2 p hp1 q hq1 hfst

theorem exists_part_of_mem_trainIdxOf (labels : List Lbl) (seed i : Nat)
    (h : i ∈ trainIdxOf labels seed) :
    ∃ p, p ∈ classAlloc labels ∧
      i ∈ (shuffle (seed + 3) (classIndices labels p.1)).take p.2 := by
  rw [trainIdxOf, mem_shuffle] at h
  obtain ⟨sub, hsub, hisub⟩ := List.mem_flatten.mp h
  obtain ⟨p, hp, rfl⟩ := List.mem_map.mp hsub
  exact ⟨p, hp, hisub⟩

theorem exists_part_of_mem_testIdxOf (labels : List Lbl) (seed i : Nat)
    (h : i ∈ testIdxOf labels seed) :
    ∃ p, p ∈ classAlloc labels ∧
      i ∈ (shuffle (seed + 3) (classIndices labels p.1)).drop p.2 := by
  rw [testIdxOf, mem_shuffle] at h
  obtain ⟨sub, hsub, hisub⟩ := List.mem_flatten.mp h
  obtain ⟨p, hp, rfl⟩ := List.mem_map.mp hsub
  exact ⟨p, hp, hisub⟩

theorem getElem?_of_mem_trainIdxOf (labels : List Lbl) (seed i : Nat)
    (h : i ∈ trainIdxOf labels seed) : ∃ c, labels[i]? = some c := by
  obtain ⟨p, _, hip⟩ := exists_part_of_mem_trainIdxOf labels seed i h
  exact ⟨p.1, getElem?_of_mem_classIndices labels p.1 i
    (mem_shuffle.mp (List.mem_of_mem_take hip))⟩

theorem getElem?_of_mem_testIdxOf (labels : List Lbl) (seed i : Nat)
    (h : i ∈ testIdxOf labels seed) : ∃ c, labels[i]? = some c := by
  obtain ⟨p, _, hip⟩ := exists_part_of_mem_testIdxOf labels seed i h
  exact ⟨p.1, getElem?_of_mem_classIndices labels p.1 i
    (mem_shuffle.mp (List.mem_of_mem_drop hip))⟩

theorem lt_length_of_mem_trainIdxOf (labels : List Lbl) (seed i : Nat)
    (h : i ∈ trainIdxOf labels seed) : i < labels.length := by
  obtain ⟨c, hc⟩ := getElem?_of_mem_trainIdxOf labels seed i h
  exact (List.getElem?_eq_some_iff.mp hc).1

theorem lt_length_of_mem_testIdxOf (labels : List Lbl) (seed i : Nat)
    (h : i ∈ testIdxOf labels seed) : i < labels.length := by
  obtain ⟨c, hc⟩ := getElem?_of_mem_testIdxOf labels seed i h
  exact (List.getElem?_eq_some_iff.mp hc).1

theorem trainIdxOf_disjoint_testIdxOf (labels : List Lbl) (seed : Nat) :
    ∀ i, i ∈ trainIdxOf labels seed → i ∈ testIdxOf labels seed → False := by
  intro i h1 h2
  obtain ⟨p, hp, hip⟩ := exists_part_of_mem_trainIdxOf labels seed i h1
  obtain ⟨q, hq, hiq⟩ := exists_part_of_mem_testIdxOf labels seed i h2
  have hlp : labels[i]? = some p.1 :=
    getElem?_of_mem_classIndices labels p.1 i (mem_shuffle.mp (List.mem_of_mem_take hip))
  have hlq : labels[i]? = some q.1 :=
    getElem?_of_mem_classIndices labels q.1 i (mem_shuffle.mp (List.mem_of_mem_drop hiq))
  have hfst : p.1 = q.1 := by
    rw [hlp] at hlq
    exact Option.some.inj hlq
  have hnd : ((classAlloc labels).map Prod.fst).Nodup := by
    rw [map_fst_classAlloc]
    exact List.nodup_dedup labels
  have hpq : p = q := eq_of_mem_of_fst_eq (classAlloc labels) hnd p hp q hq hfst
  subst hpq
  have hLnd : (shuffle (seed + 3) (classIndices labels p.1)).Nodup :=
    (shuffle_perm (seed + 3) (classIndices labels p.1)).nodup_iff.mpr
      (nodup_classIndices labels p.1)
  exact (List.disjoint_take_drop hLnd le_rfl) hip hiq

theorem length_select {α : Type} (l : List α) (d : α) (idx : List Nat) :
    (select l d idx).length = idx.length := by
  rw [select, List.length_map]

/-! ### C2: determinism of the seeded split -/

/-- C2: for every input population and fixed seed, running the train/test
split twice with the same seed, the same input ordering and the same split
fraction yields bit-identical partitions — the split is a pure function of
its inputs and the seed (the seeded random stream itself is a deterministic
function of the seed). -/
theorem train_test_split_deterministic (p₁ p₂ : Population) (s₁ s₂ : Nat)
    (hp : p₁ = p₂) (hs : s₁ = s₂) :
    train_test_split p₁ s₁ = train_test_split p₂ s₂ := by
  rw [hp, hs]

theorem train_test_split_deterministic_witness :
    train_test_split
        ⟨[[1], [2], [3], [4], [5], [6]], [true, true, true, false, false, false],
          ["p1", "p2", "p3", "p4", "p5", "p6"]⟩ 42 =
      train_test_split
        ⟨[[1], [2], [3], [4], [5], [6]], [true, true, true, false, false, false],
          ["p1", "p2", "p3", "p4", "p5", "p6"]⟩ 42 :=
  train_test_split_deterministic _ _ 42 42 rfl rfl

/-! ### C5: no test-label leakage into the clinical embedding stage -/

/-- C5: the clinical embedding model is fit on train-subset features and
labels only, and test embeddings are produced by applying that train-fit
model to test features: two runs of the stage whose inputs agree on train
features, train labels and test features — differing arbitrarily in the
test labels — produce the identical fitted model, train embeddings and
test embeddings. -/
theorem clinicalEmbeddingStage_no_test_label_leak (s₁ s₂ : SplitData)
    (h₁ : s₁.trainData = s₂.trainData) (h₂ : s₁.trainLabels = s₂.trainLabels)
    (h₃ : s₁.testData = s₂.testData) :
    clinicalEmbeddingStage s₁ = clinicalEmbeddingStage s₂ := by
  rw [clinicalEmbeddingStage, clinicalEmbeddingStage, h₁, h₂, h₃]

theorem clinicalEmbeddingStage_no_test_label_leak_witness :
    (⟨[[1]], [[9]], [true], [false], ["a"], ["b"]⟩ : SplitData).trainData =
        (⟨[[1]], [[9]], [true], [true], ["a"], ["b"]⟩ : SplitData).trainData ∧
      clinicalEmbeddingStage ⟨[[1]], [[9]], [true], [false], ["a"], ["b"]⟩ =
        clinicalEmbeddingStage ⟨[[1]], [[9]], [true], [true], ["a"], ["b"]⟩ :=
  ⟨rfl,
    clinicalEmbeddingStage_no_test_label_leak
      ⟨[[1]], [[9]], [true], [false], ["a"], ["b"]⟩
      ⟨[[1]], [[9]], [true], [true], ["a"], ["b"]⟩ rfl rfl rfl⟩

/-! ### C8: metric averaging over an empty fold-metrics collection -/

/-- C8 (code bug): when the metric-averaging step at the end of
`run_cross_validation` is reached — and it is always reached with an empty
`fold_metrics` collection, since the fold loop never appends to it — the
step evaluates `fold_metrics[0]` on the empty list and raises `IndexError`,
not the `AggregationError` the claim requires. -/
theorem run_cross_validation_empty_metrics_index_fault (pop : Population) (k : Nat)
    (r : List FoldArtifacts × CVOutcome) (h : run_cross_validation pop k = some r) :
    r.2 = CVOutcome.indexError ∧ r.2 ≠ CVOutcome.aggregationError ∧
      averageMetrics [] k = CVOutcome.indexError := by
  rw [run_cross_validation] at h
  obtain ⟨folds, hf, hr⟩ := Option.map_eq_some'.mp h
  have h2 : r.2 = averageMetrics [] k := by
    rw [← hr]
  rw [averageMetrics] at h2
  exact ⟨h2, by rw [h2]; decide, rfl⟩

theorem run_cross_validation_empty_metrics_index_fault_witness :
    ∃ r, run_cross_validation
        ⟨[[1], [2], [3], [4], [5], [6]], [true, true, true, false, false, false],
          ["p1", "p2", "p3", "p4", "p5", "p6"]⟩ 5 = some r ∧
      r.2 = CVOutcome.indexError ∧ r.2 ≠ CVOutcome.aggregationError := by
  rcases hE : run_cross_validation
      ⟨[[1], [2], [3], [4], [5], [6]], [true, true, true, false, false, false],
        ["p1", "p2", "p3", "p4", "p5", "p6"]⟩ 5 with _ | r
  · exact absurd hE (by decide)
  · obtain ⟨ha, hb, _⟩ :=
      run_cross_validation_empty_metrics_index_fault _ 5 r hE
    exact ⟨r, rfl, ha, hb⟩

/-! ### C9: loud failure on an under-populated label class -/

/-- C9: if some label class present in the population has fewer than two
members — too few to place the class in both the train and the test
subset — the stratified split fails with the insufficient-samples error
(scikit-learn's "least populated class" `ValueError`, named
`InsufficientSamplesError` by the spec) instead of silently producing an
empty class bucket. -/
theorem train_test_split_small_class_error (pop : Population) (seed : Nat) (c : Lbl)
    (hc : c ∈ pop.labels) (hlt : pop.labels.count c < 2) :
    train_test_split pop seed = Except.error SplitError.insufficientSamples := by
  have hdedup : c ∈ classesOf pop.labels := List.mem_dedup.mpr hc
  have hcnt : pop.labels.count c ∈ classCounts pop.labels := by
    rw [classCounts]
    exact List.mem_map_of_mem (fun x => pop.labels.count x) hdedup
  have hany : (classCounts pop.labels).any (fun m => m < 2) = true := by
    rw [List.any_eq_true]
    exact ⟨pop.labels.count c, hcnt, by simpa using hlt⟩
  have hok : splitOk pop.labels = false := by
    rw [splitOk, hany]
    rfl
  rw [train_test_split, stratifiedSplitIdx, if_neg (by simp [hok])]
  rfl

theorem train_test_split_small_class_error_witness :
    true ∈ ([true, false, false, false, false, false] : List Lbl) ∧
      ([true, false, false, false, false, false] : List Lbl).count true < 2 ∧
      train_test_split
          ⟨[[0], [1], [2], [3], [4], [5]], [true, false, false, false, false, false],
            ["a", "b", "c", "d", "e", "f"]⟩ 7 =
        Except.error SplitError.insufficientSamples :=
  ⟨by decide, by decide,
    train_test_split_small_class_error
      ⟨[[0], [1], [2], [3], [4], [5]], [true, false, false, false, false, false],
        ["a", "b", "c", "d", "e", "f"]⟩ 7 true (by decide) (by decide)⟩

/-! ### C3: the split partitions the patient ids -/

theorem except_map_ok {ε α β : Type} (f : α → β) (e : Except ε α) (b : β)
    (h : e.map f = Except.ok b) : ∃ a, e = Except.ok a ∧ f a = b := by
  cases e with
  | error err => simp [Except.map] at h
  | ok a => exact ⟨a, rfl, by simpa [Except.map] using h⟩

theorem parts_length (labels : List Lbl) (seed : Nat) :
    ∀ l : List (Lbl × Nat),
      ((l.map (fun p => (shuffle (seed + 3) (classIndices labels p.1)).take p.2)).flatten).length +
        ((l.map (fun p => (shuffle (seed + 3) (classIndices labels p.1)).drop p.2)).flatten).length =
        (l.map (fun p => labels.count p.1)).sum := by
  intro l
  induction l with
  | nil => simp
  | cons p t ih =>
    simp only [List.map_cons, List.flatten_cons, List.length_append, List.sum_cons]
    rw [List.length_take, List.length_drop, length_shuffle, length_classIndices]
    omega

theorem trainIdx_add_testIdx_length (labels : List Lbl) (seed : Nat) :
    (trainIdxOf labels seed).length + (testIdxOf labels seed).length = labels.length := by
  rw [trainIdxOf, testIdxOf, length_shuffle, length_shuffle,
    parts_length labels seed (classAlloc labels)]
  have h2 : (classAlloc labels).map (fun p => labels.count p.1) =
      (classesOf labels).map (fun c => labels.count c) := by
    rw [← map_fst_classAlloc labels, List.map_map]
    rfl
  rw [h2]
  exact List.sum_map_count_dedup_eq_length labels

theorem getD_eq_getElem_of_lt {α : Type} (l : List α) (d : α) (i : Nat) (h : i < l.length) :
    l.getD i d = l[i] := by
  simp [List.getD, List.getElem?_eq_getElem h]

theorem stratifiedSplitIdx_ok (labels : List Lbl) (seed : Nat) (si : SplitIdx)
    (h : stratifiedSplitIdx labels seed = Except.ok si) :
    si.trainIdx = trainIdxOf labels seed ∧ si.testIdx = testIdxOf labels seed := by
  rw [stratifiedSplitIdx] at h
  by_cases hok : splitOk labels = true
  · rw [if_pos hok] at h
    cases h
    exact ⟨rfl, rfl⟩
  · rw [if_neg hok] at h
    cases h

/-- C3: for every input population on which the split succeeds, the
train/test split is a partition of the patient ids —
`len(train_ids) + len(test_ids) == len(all_ids)`, and no patient id
appears in both the train and the test subset of the same split. -/
theorem train_test_split_partitions_ids (pop : Population) (seed : Nat) (s : SplitData)
    (hs : train_test_split pop seed = Except.ok s)
    (hlen : pop.ids.length = pop.labels.length) (hnd : pop.ids.Nodup) :
    s.trainIds.length + s.testIds.length = pop.ids.length ∧
      ∀ a, a ∈ s.trainIds → a ∈ s.testIds → False := by
  rw [train_test_split] at hs
  obtain ⟨si, hsi, hrec⟩ := except_map_ok _ _ _ hs
  obtain ⟨htr, hte⟩ := stratifiedSplitIdx_ok pop.labels seed si hsi
  subst hrec
  constructor
  · simp only [length_select, htr, hte]
    rw [trainIdx_add_testIdx_length, hlen]
  · intro a h1 h2
    simp only [select, htr, hte, List.mem_map] at h1 h2
    obtain ⟨i, hi, hia⟩ := h1
    obtain ⟨j, hj, hja⟩ := h2
    have hi2 : i < pop.ids.length := by
      rw [hlen]
      exact lt_length_of_mem_trainIdxOf pop.labels seed i hi
    have hj2 : j < pop.ids.length := by
      rw [hlen]
      exact lt_length_of_mem_testIdxOf pop.labels seed j hj
    have hgi : pop.ids[i] = a := by
      rw [← getD_eq_getElem_of_lt pop.ids "" i hi2]
      exact hia
    have hgj : pop.ids[j] = a := by
      rw [← getD_eq_getElem_of_lt pop.ids "" j hj2]
      exact hja
    have hij : i = j := by
      apply List.getElem?_inj hi2 hnd
      rw [List.getElem?_eq_getElem hi2, List.getElem?_eq_getElem hj2, hgi, hgj]
    subst hij
    exact trainIdxOf_disjoint_testIdxOf pop.labels seed i hi hj

theorem train_test_split_partitions_ids_witness :
    ∃ s, train_test_split
        ⟨[[1], [2], [3], [4], [5], [6]], [true, true, true, false, false, false],
          ["p1", "p2", "p3", "p4", "p5", "p6"]⟩ 42 = Except.ok s ∧
      (s.trainIds.length + s.testIds.length =
          (⟨[[1], [2], [3], [4], [5], [6]], [true, true, true, false, false, false],
            ["p1", "p2", "p3", "p4", "p5", "p6"]⟩ : Population).ids.length ∧
        ∀ a, a ∈ s.trainIds → a ∈ s.testIds → False) := by
  rcases hE : train_test_split
      ⟨[[1], [2], [3], [4], [5], [6]], [true, true, true, false, false, false],
        ["p1", "p2", "p3", "p4", "p5", "p6"]⟩ 42 with e | s
  · have hok : splitOk [true, true, true, false, false, false] = true := by decide
    rw [train_test_split, stratifiedSplitIdx, if_pos hok] at hE
    simp [Except.map] at hE
  · exact ⟨s, rfl,
      train_test_split_partitions_ids _ 42 s hE (by decide) (by decide)⟩

/-! ### C4: exact stratified class counts -/

theorem countP_take_all (L : List Nat) (p : Nat → Bool) (a : Nat) (ha : a ≤ L.length)
    (hall : ∀ x ∈ L, p x = true) : (L.take a).countP p = a := by
  have h1 : (L.take a).countP p = (L.take a).length :=
    List.countP_eq_length.mpr (fun x hx => hall x (List.mem_of_mem_take hx))
  rw [h1, List.length_take]
  omega

theorem countP_take_none (L : List Nat) (p : Nat → Bool) (a : Nat)
    (hall : ∀ x ∈ L, ¬p x = true) : (L.take a).countP p = 0 :=
  List.countP_eq_zero.mpr (fun x hx => hall x (List.mem_of_mem_take hx))

theorem countP_drop_all (L : List Nat) (p : Nat → Bool) (a : Nat)
    (hall : ∀ x ∈ L, p x = true) : (L.drop a).countP p = L.length - a := by
  have h1 : (L.drop a).countP p = (L.drop a).length :=
    List.countP_eq_length.mpr (fun x hx => hall x (List.mem_of_mem_drop hx))
  rw [h1, List.length_drop]

theorem countP_drop_none (L : List Nat) (p : Nat → Bool) (a : Nat)
    (hall : ∀ x ∈ L, ¬p x = true) : (L.drop a).countP p = 0 :=
  List.countP_eq_zero.mpr (fun x hx => hall x (List.mem_of_mem_drop hx))

theorem two_class_split (labels : List Lbl) (seed : Nat) (c₁ c₂ : Lbl) (k₁ k₂ a₁ a₂ : Nat)
    (hd : classesOf labels = [c₁, c₂])
    (hk₁ : labels.count c₁ = k₁) (hk₂ : labels.count c₂ = k₂)
    (hcc : classCounts labels = [k₁, k₂])
    (hal : approxMode [k₁, k₂] (nTrainOf labels.length) labels.length = [a₁, a₂])
    (ha₁ : a₁ ≤ k₁) (ha₂ : a₂ ≤ k₂) :
    (trainIdxOf labels seed).length = a₁ + a₂ ∧
      (trainIdxOf labels seed).countP (fun i => decide (labels[i]? = some c₁)) = a₁ ∧
      (testIdxOf labels seed).length = (k₁ - a₁) + (k₂ - a₂) ∧
      (testIdxOf labels seed).countP (fun i => decide (labels[i]? = some c₁)) = k₁ - a₁ := by
  have hnd : (classesOf labels).Nodup := List.nodup_dedup labels
  have hne : c₁ ≠ c₂ := by
    rw [hd] at hnd
    simp [List.nodup_cons] at hnd
    exact hnd
  have hca : classAlloc labels = [(c₁, a₁), (c₂, a₂)] := by
    rw [classAlloc, hd, hcc, hal]
    rfl
  have hlen₁ : (shuffle (seed + 3) (classIndices labels c₁)).length = k₁ := by
    rw [length_shuffle, length_classIndices, hk₁]
  have hlen₂ : (shuffle (seed + 3) (classIndices labels c₂)).length = k₂ := by
    rw [length_shuffle, length_classIndices, hk₂]
  have hall₁ : ∀ x ∈ shuffle (seed + 3) (classIndices labels c₁),
      (fun i => decide (labels[i]? = some c₁)) x = true := by
    intro x hx
    simp only [decide_eq_true_eq]
    exact getElem?_of_mem_classIndices labels c₁ x (mem_shuffle.mp hx)
  have hall₂ : ∀ x ∈ shuffle (seed + 3) (classIndices labels c₂),
      ¬((fun i => decide (labels[i]? = some c₁)) x = true) := by
    intro x hx
    simp only [decide_eq_true_eq]
    rw [getElem?_of_mem_classIndices labels c₂ x (mem_shuffle.mp hx)]
    intro hcontra
    exact hne (Option.some.inj hcontra).symm
  have htrainEq : trainIdxOf labels seed = shuffle (seed + 1)
      ((shuffle (seed + 3) (classIndices labels c₁)).take a₁ ++
        (shuffle (seed + 3) (classIndices labels c₂)).take a₂) := by
    rw [trainIdxOf, hca]
    simp [List.flatten]
  have htestEq : testIdxOf labels seed = shuffle (seed + 2)
      ((shuffle (seed + 3) (classIndices labels c₁)).drop a₁ ++
        (shuffle (seed + 3) (classIndices labels c₂)).drop a₂) := by
    rw [testIdxOf, hca]
    simp [List.flatten]
  refine ⟨?_, ?_, ?_, ?_⟩
  · rw [htrainEq, length_shuffle, List.length_append, List.length_take, List.length_take,
      hlen₁, hlen₂]
    omega
  · rw [htrainEq, (shuffle_perm _ _).countP_eq, List.countP_append,
      countP_take_all _ _ a₁ (by omega) hall₁, countP_take_none _ _ a₂ hall₂]
    omega
  · rw [htestEq, length_shuffle, List.length_append, List.length_drop, List.length_drop,
      hlen₁, hlen₂]
  · rw [htestEq, (shuffle_perm _ _).countP_eq, List.countP_append,
      countP_drop_all _ _ a₁ hall₁, countP_drop_none _ _ a₂ hall₂, hlen₁]
    omega

theorem count_bool (l : List Bool) : l.count true + l.count false = l.length := by
  induction l with
  | nil => simp
  | cons b t ih =>
    cases b <;> simp [List.count_cons] <;> omega

theorem nodup_bool_both (d : List Bool) (hnd : d.Nodup) (ht : true ∈ d) (hf : false ∈ d) :
    d = [true, false] ∨ d = [false, true] := by
  rcases d with _ | ⟨a, _ | ⟨b, rest⟩⟩
  · simp at ht
  · cases a <;> simp_all
  · rcases rest with _ | ⟨c, rest2⟩
    · cases a <;> cases b <;> simp_all
    · exfalso
      cases a <;> cases b <;> cases c <;> simp_all

theorem count_select_labels (labels : List Lbl) (idx : List Nat) (c : Lbl)
    (hidx : ∀ i ∈ idx, i < labels.length) :
    (select labels false idx).count c =
      idx.countP (fun i => decide (labels[i]? = some c)) := by
  rw [select, List.count, List.countP_map]
  apply List.countP_congr
  intro i hi
  have hlt := hidx i hi
  simp only [Function.comp_apply, beq_iff_eq, decide_eq_true_eq]
  rw [getD_eq_getElem_of_lt labels false i hlt, List.getElem?_eq_getElem hlt]
  simp

/-- C4: the clinical split is stratified by label — for a population of 100
patients of which 20 carry the positive label, with split fraction 0.2, the
train set has exactly 80 rows of which 16 are positive and the test set has
exactly 20 rows of which 4 are positive, for every seed (in particular for
the pipeline's seed 42). -/
theorem train_test_split_stratified_counts (pop : Population) (seed : Nat)
    (hlen : pop.labels.length = 100) (hcnt : pop.labels.count true = 20) :
    ∃ s, train_test_split pop seed = Except.ok s ∧
      s.trainData.length = 80 ∧ s.trainLabels.count true = 16 ∧
      s.testData.length = 20 ∧ s.testLabels.count true = 4 := by
  have hb := count_bool pop.labels
  have hfalse : pop.labels.count false = 80 := by omega
  have hmemT : true ∈ pop.labels := List.count_pos_iff.mp (by omega)
  have hmemF : false ∈ pop.labels := List.count_pos_iff.mp (by omega)
  have hidxT : ∀ i ∈ trainIdxOf pop.labels seed, i < pop.labels.length :=
    fun i hi => lt_length_of_mem_trainIdxOf pop.labels seed i hi
  have hidxE : ∀ i ∈ testIdxOf pop.labels seed, i < pop.labels.length :=
    fun i hi => lt_length_of_mem_testIdxOf pop.labels seed i hi
  rcases nodup_bool_both pop.labels.dedup (List.nodup_dedup pop.labels)
      (List.mem_dedup.mpr hmemT) (List.mem_dedup.mpr hmemF) with hd | hd
  · have hcc : classCounts pop.labels = [20, 80] := by
      rw [classCounts, classesOf, hd]
      simp [hcnt, hfalse]
    have hal : approxMode [20, 80] (nTrainOf pop.labels.length) pop.labels.length =
        [16, 64] := by
      rw [hlen]
      decide
    obtain ⟨hlt, hct, hle, hce⟩ :=
      two_class_split pop.labels seed true false 20 80 16 64 hd hcnt hfalse hcc hal
        (by omega) (by omega)
    have hok : splitOk pop.labels = true := by
      rw [splitOk, hcc, classesOf, hd, hlen]
      decide
    refine ⟨_, by rw [train_test_split, stratifiedSplitIdx, if_pos hok]; rfl, ?_, ?_, ?_, ?_⟩
    · rw [length_select, hlt]
    · rw [count_select_labels pop.labels _ true hidxT, hct]
    · rw [length_select, hle]
    · rw [count_select_labels pop.labels _ true hidxE, hce]
  · have hcc : classCounts pop.labels = [80, 20] := by
      rw [classCounts, classesOf, hd]
      simp [hcnt, hfalse]
    have hal : approxMode [80, 20] (nTrainOf pop.labels.length) pop.labels.length =
        [64, 16] := by
      rw [hlen]
      decide
    obtain ⟨hlt, hct, hle, hce⟩ :=
      two_class_split pop.labels seed false true 80 20 64 16 hd hfalse hcnt hcc hal
        (by omega) (by omega)
    have hok : splitOk pop.labels = true := by
      rw [splitOk, hcc, classesOf, hd, hlen]
      decide
    have hcF : (select pop.labels false (trainIdxOf pop.labels seed)).count false = 64 := by
      rw [count_select_labels pop.labels _ false hidxT, hct]
    have hcFe : (select pop.labels false (testIdxOf pop.labels seed)).count false = 16 := by
      rw [count_select_labels pop.labels _ false hidxE, hce]
    have hbT := count_bool (select pop.labels false (trainIdxOf pop.labels seed))
    have hbE := count_bool (select pop.labels false (testIdxOf pop.labels seed))
    rw [length_select, hlt] at hbT
    rw [length_select, hle] at hbE
    refine ⟨_, by rw [train_test_split, stratifiedSplitIdx, if_pos hok]; rfl, ?_, ?_, ?_, ?_⟩
    · rw [length_select, hlt]
    · show (select pop.labels false (trainIdxOf pop.labels seed)).count true = 16
      omega
    · rw [length_select, hle]
    · show (select pop.labels false (testIdxOf pop.labels seed)).count true = 4
      omega

theorem train_test_split_stratified_counts_witness :
    (List.replicate 20 true ++ List.replicate 80 false).length = 100 ∧
      (List.replicate 20 true ++ List.replicate 80 false).count true = 20 ∧
      ∃ s, train_test_split
          ⟨List.replicate 100 [0], List.replicate 20 true ++ List.replicate 80 false,
            List.replicate 100 "p"⟩ 42 = Except.ok s ∧
        s.trainData.length = 80 ∧ s.trainLabels.count true = 16 ∧
        s.testData.length = 20 ∧ s.testLabels.count true = 4 :=
  ⟨by decide, by decide,
    train_test_split_stratified_counts _ 42 (by decide) (by decide)⟩

/-! ### C7: k-fold cross-validation folds partition the population -/

theorem length_foldSizes (n k : Nat) (hk : 0 < k) : (foldSizes n k).length = k := by
  rw [foldSizes, List.length_append, List.length_replicate, List.length_replicate]
  have h1 := Nat.mod_lt n hk
  omega

theorem sum_foldSizes (n k : Nat) (hk : 0 < k) : (foldSizes n k).sum = n := by
  rw [foldSizes, List.sum_append, List.sum_replicate, List.sum_replicate,
    smul_eq_mul, smul_eq_mul]
  have h1 : n % k < k := Nat.mod_lt n hk
  have h2 : k * (n / k) + n % k = n := Nat.div_add_mod n k
  rw [Nat.mul_add, Nat.mul_one, Nat.sub_mul]
  have h3 : n % k * (n / k) ≤ k * (n / k) := Nat.mul_le_mul_right _ (le_of_lt h1)
  omega

theorem length_chunks : ∀ (sizes l : List Nat), (chunks sizes l).length = sizes.length := by
  intro sizes
  induction sizes with
  | nil => intro l; rfl
  | cons s rest ih =>
    intro l
    rw [chunks, List.length_cons, List.length_cons, ih (l.drop s)]

theorem flatten_chunks : ∀ (sizes l : List Nat),
    (chunks sizes l).flatten = l.take sizes.sum := by
  intro sizes
  induction sizes with
  | nil => intro l; simp [chunks]
  | cons s rest ih =>
    intro l
    rw [chunks, List.flatten_cons, ih (l.drop s), List.sum_cons, List.take_add]

theorem map_length_chunks : ∀ (sizes l : List Nat), sizes.sum ≤ l.length →
    (chunks sizes l).map List.length = sizes := by
  intro sizes
  induction sizes with
  | nil => intro l _; rfl
  | cons s rest ih =>
    intro l h
    rw [List.sum_cons] at h
    have h2 : rest.sum ≤ (l.drop s).length := by
      rw [List.length_drop]
      omega
    rw [chunks, List.map_cons, List.length_take, ih (l.drop s) h2]
    congr 1
    omega

/-- C7: `KFold(n_splits=k, shuffle=True)` over `n` patients (with `k ≤ n`,
`k ≥ 2`, the library's validity domain) produces exactly `k` validation
folds, pairwise disjoint, whose union is the full population; for `n = 50`
and the default `k = 5`, every validation fold has exactly 10 patients. -/
theorem kfoldValFolds_partition (n k seed : Nat) (hk : 2 ≤ k) (hn : k ≤ n) :
    ∃ folds, kfoldValFolds n k seed = some folds ∧
      folds.length = k ∧
      List.Pairwise List.Disjoint folds ∧
      List.Perm folds.flatten (List.range n) ∧
      (n = 50 → k = 5 → ∀ f ∈ folds, f.length = 10) := by
  have hk0 : 0 < k := by omega
  have hlenr : (shuffle seed (List.range n)).length = n := by
    rw [length_shuffle, List.length_range]
  have hflat : (chunks (foldSizes n k) (shuffle seed (List.range n))).flatten =
      shuffle seed (List.range n) := by
    rw [flatten_chunks, sum_foldSizes n k hk0]
    exact List.take_of_length_le (le_of_eq hlenr)
  rw [kfoldValFolds, if_pos ⟨hk, hn⟩]
  refine ⟨_, rfl, ?_, ?_, ?_, ?_⟩
  · rw [length_chunks, length_foldSizes n k hk0]
  · have hnd : (chunks (foldSizes n k) (shuffle seed (List.range n))).flatten.Nodup := by
      rw [hflat]
      exact (shuffle_perm seed (List.range n)).nodup_iff.mpr (List.nodup_range n)
    exact (List.nodup_flatten.mp hnd).2
  · rw [hflat]
    exact shuffle_perm seed (List.range n)
  · intro h50 h5 f hf
    subst h50
    subst h5
    have hsle : (foldSizes 50 5).sum ≤ (shuffle seed (List.range 50)).length := by
      rw [sum_foldSizes 50 5 (by omega), hlenr]
    have hml := map_length_chunks (foldSizes 50 5) (shuffle seed (List.range 50)) hsle
    have hmem : f.length ∈
        (chunks (foldSizes 50 5) (shuffle seed (List.range 50))).map List.length :=
      List.mem_map_of_mem List.length hf
    rw [hml] at hmem
    have hfs : foldSizes 50 5 = List.replicate 5 10 := by decide
    rw [hfs] at hmem
    exact List.eq_of_mem_replicate hmem

theorem kfoldValFolds_partition_witness :
    ∃ folds, kfoldValFolds 50 5 42 = some folds ∧
      folds.length = 5 ∧
      List.Pairwise List.Disjoint folds ∧
      List.Perm folds.flatten (List.range 50) ∧
      (50 = 50 → 5 = 5 → ∀ f ∈ folds, f.length = 10) :=
  kfoldValFolds_partition 50 5 42 (by decide) (by decide)

/-! ### C6: the image-modality id split is positional over sorted ids -/

theorem charsLe_total : ∀ a b : List Char, charsLe a b = true ∨ charsLe b a = true := by
  intro a
  induction a with
  | nil => intro b; left; rfl
  | cons x xs ih =>
    intro b
    rcases b with _ | ⟨y, ys⟩
    · right; rfl
    · by_cases hxy : x = y
      · subst hxy
        rcases ih ys with h | h
        · left
          rw [charsLe, if_pos rfl]
          exact h
        · right
          rw [charsLe, if_pos rfl]
          exact h
      · by_cases hlt : x < y
        · left
          rw [charsLe, if_neg hxy]
          simpa using hlt
        · right
          rw [charsLe, if_neg (fun hc => hxy hc.symm)]
          have h2 : y < x := lt_of_le_of_ne (le_of_not_lt hlt) (fun hc => hxy hc.symm)
          simpa using h2

theorem charsLe_trans : ∀ a b c : List Char,
    charsLe a b = true → charsLe b c = true → charsLe a c = true := by
  intro a
  induction a with
  | nil => intro b c _ _; rfl
  | cons x xs ih =>
    intro b c hab hbc
    rcases b with _ | ⟨y, ys⟩
    · simp [charsLe] at hab
    · rcases c with _ | ⟨z, zs⟩
      · simp [charsLe] at hbc
      · by_cases hxy : x = y
        · subst hxy
          rw [charsLe, if_pos rfl] at hab
          by_cases hyz : x = z
          · subst hyz
            rw [charsLe, if_pos rfl] at hbc ⊢
            exact ih ys zs hab hbc
          · rw [charsLe, if_neg hyz] at hbc ⊢
            exact hbc
        · rw [charsLe, if_neg hxy] at hab
          have hxy2 : x < y := by simpa using hab
          by_cases hyz : y = z
          · subst hyz
            rw [charsLe, if_neg hxy]
            simpa using hxy2
          · rw [charsLe, if_neg hyz] at hbc
            have hyz2 : y < z := by simpa using hbc
            have hxz : x < z := lt_trans hxy2 hyz2
            rw [charsLe, if_neg (ne_of_lt hxz)]
            simpa using hxz

/-- C6: image-modality ids are split positionally, not by label — the split
concatenated back together is the code-point-sorted permutation of the
dataset's patient ids, the train part is exactly the first `⌊n/2⌋` sorted
ids and the test part the remaining ones, and on a directory of 10 patient
ids the train list is exactly the first 5 sorted ids and the test list the
last 5 (labels play no part: they are not even an input). -/
theorem imageIdSplit_positional_half :
    (∀ keys : List PatientId,
        List.Perm ((imageIdSplit keys).1 ++ (imageIdSplit keys).2) keys ∧
        List.Sorted (fun a b => pidLe a b = true)
          ((imageIdSplit keys).1 ++ (imageIdSplit keys).2) ∧
        (imageIdSplit keys).1.length = keys.length / 2 ∧
        (imageIdSplit keys).2.length = keys.length - keys.length / 2) ∧
      imageIdSplit ["p07", "p03", "p10", "p01", "p05", "p09", "p02", "p06", "p04", "p08"] =
        (["p01", "p02", "p03", "p04", "p05"], ["p06", "p07", "p08", "p09", "p10"]) := by
  constructor
  · intro keys
    have happ : (imageIdSplit keys).1 ++ (imageIdSplit keys).2 = sortIds keys := by
      rw [imageIdSplit]
      exact List.take_append_drop _ _
    have hperm : List.Perm (sortIds keys) keys := List.perm_insertionSort _ keys
    have hlen : (sortIds keys).length = keys.length := hperm.length_eq
    refine ⟨?_, ?_, ?_, ?_⟩
    · rw [happ]
      exact hperm
    · rw [happ, sortIds]
      haveI h1 : IsTotal PatientId (fun a b => pidLe a b = true) :=
        ⟨fun a b => charsLe_total a.data b.data⟩
      haveI h2 : IsTrans PatientId (fun a b => pidLe a b = true) :=
        ⟨fun a b c => charsLe_trans a.data b.data c.data⟩
      exact List.sorted_insertionSort _ keys
    · rw [imageIdSplit]
      simp only [List.length_take]
      rw [hlen]
      omega
    · rw [imageIdSplit]
      simp only [List.length_drop]
      rw [hlen]
  · decide

/-! ### C10 and C1: what `generate_data` persists -/

theorem generate_data_not_pregen (dt : DataType) (pop : Population)
    (pngKeys : List PatientId) :
    generate_data ⟨false, dt⟩ pop pngKeys =
      (train_test_split pop 42).map (fun s =>
        some
          { train_data_csv := s.trainData
            train_labels_csv := s.trainIds.zip s.trainLabels
            test_data_csv := s.testData
            test_labels_csv := s.testIds.zip s.testLabels
            clinical_train_emb :=
              if dt = DataType.both ∨ dt = DataType.clinical then
                some ((clinicalEmbeddingStage s).2.1)
              else none
            clinical_test_emb :=
              if dt = DataType.both ∨ dt = DataType.clinical then
                some ((clinicalEmbeddingStage s).2.2)
              else none
            image_train_emb :=
              if dt = DataType.both ∨ dt = DataType.image then
                some (((imageIdSplit pngKeys).1).map imageEmbed)
              else none
            image_test_emb :=
              if dt = DataType.both ∨ dt = DataType.image then
                some (((imageIdSplit pngKeys).2).map imageEmbed)
              else none }) := rfl

/-- C10: without the `use_pregen` flag, `generate_data` loads the clinical
table, performs the stratified 80/20 split and writes the four CSV
artifacts whatever the modality selector is — even for `data_type='image'`;
only the embedding-generation steps are gated by the selector. -/
theorem generate_data_writes_csv_regardless_of_modality (dt : DataType) (pop : Population)
    (pngKeys : List PatientId) (s : SplitData)
    (hs : train_test_split pop 42 = Except.ok s) :
    ∃ out, generate_data ⟨false, dt⟩ pop pngKeys = Except.ok (some out) ∧
      out.train_data_csv = s.trainData ∧
      out.train_labels_csv = s.trainIds.zip s.trainLabels ∧
      out.test_data_csv = s.testData ∧
      out.test_labels_csv = s.testIds.zip s.testLabels ∧
      (out.clinical_train_emb.isSome = true ↔
        (dt = DataType.clinical ∨ dt = DataType.both)) ∧
      (out.clinical_test_emb.isSome = true ↔
        (dt = DataType.clinical ∨ dt = DataType.both)) ∧
      (out.image_train_emb.isSome = true ↔
        (dt = DataType.image ∨ dt = DataType.both)) ∧
      (out.image_test_emb.isSome = true ↔
        (dt = DataType.image ∨ dt = DataType.both)) := by
  rw [generate_data_not_pregen, hs]
  cases dt
  · exact ⟨_, rfl, rfl, rfl, rfl, rfl, by simp, by simp, by simp, by simp⟩
  · exact ⟨_, rfl, rfl, rfl, rfl, rfl, by simp, by simp, by simp, by simp⟩
  · exact ⟨_, rfl, rfl, rfl, rfl, rfl, by simp, by simp, by simp, by simp⟩

theorem generate_data_writes_csv_regardless_of_modality_witness :
    ∃ s, train_test_split
        ⟨[[1], [2], [3], [4], [5], [6]], [true, true, true, false, false, false],
          ["p1", "p2", "p3", "p4", "p5", "p6"]⟩ 42 = Except.ok s ∧
      ∃ out, generate_data ⟨false, DataType.image⟩
          ⟨[[1], [2], [3], [4], [5], [6]], [true, true, true, false, false, false],
            ["p1", "p2", "p3", "p4", "p5", "p6"]⟩ ["k2", "k1"] = Except.ok (some out) ∧
        out.train_data_csv = s.trainData ∧
        out.train_labels_csv = s.trainIds.zip s.trainLabels ∧
        out.test_data_csv = s.testData ∧
        out.test_labels_csv = s.testIds.zip s.testLabels ∧
        (out.clinical_train_emb.isSome = true ↔
          (DataType.image = DataType.clinical ∨ DataType.image = DataType.both)) ∧
        (out.clinical_test_emb.isSome = true ↔
          (DataType.image = DataType.clinical ∨ DataType.image = DataType.both)) ∧
        (out.image_train_emb.isSome = true ↔
          (DataType.image = DataType.image ∨ DataType.image = DataType.both)) ∧
        (out.image_test_emb.isSome = true ↔
          (DataType.image = DataType.image ∨ DataType.image = DataType.both)) := by
  rcases hE : train_test_split
      ⟨[[1], [2], [3], [4], [5], [6]], [true, true, true, false, false, false],
        ["p1", "p2", "p3", "p4", "p5", "p6"]⟩ 42 with e | s
  · have hok : splitOk [true, true, true, false, false, false] = true := by decide
    rw [train_test_split, stratifiedSplitIdx, if_pos hok] at hE
    simp [Except.map] at hE
  · exact ⟨s, rfl,
      generate_data_writes_csv_regardless_of_modality DataType.image _ ["k2", "k1"] s hE⟩

theorem select_zip_alignment (pop : Population) (idx : List Nat)
    (hidx : ∀ i ∈ idx, i < pop.labels.length) (m : ClinicalModel) (i : Nat)
    (hi : i < idx.length) :
    ∃ j, j < pop.labels.length ∧
      ((select pop.ids "" idx).zip (select pop.labels false idx))[i]? =
        some (pop.ids.getD j "", pop.labels.getD j false) ∧
      (select pop.data [] idx)[i]? = some (pop.data.getD j []) ∧
      (generate_embeddings m (select pop.data [] idx))[i]? =
        some (embedRow m (pop.data.getD j [])) := by
  have hj : idx[i] ∈ idx := List.getElem_mem hi
  refine ⟨idx[i], hidx idx[i] hj, ?_, ?_, ?_⟩
  · rw [select, select, List.zip_map', List.getElem?_map, List.getElem?_eq_getElem hi]
    rfl
  · rw [select, List.getElem?_map, List.getElem?_eq_getElem hi]
    rfl
  · rw [generate_embeddings, select, List.map_map, List.getElem?_map,
      List.getElem?_eq_getElem hi]
    rfl

/-- C1: for the persisted clinical embedding artifacts written by
`generate_data`, the id/label table persisted alongside each one has the
same number of rows and the same row order as the embedding array (which
itself mirrors the persisted data CSV row by row): row `i` of the labels
CSV holds the id and label of the very patient `j` of the input population
whose features occupy row `i` of the data CSV and whose embedding occupies
row `i` of the embedding array. -/
theorem generate_data_persists_aligned_rows (dt : DataType) (pop : Population)
    (pngKeys : List PatientId) (out : GenOutputs) (hdt : dt ≠ DataType.image)
    (hgen : generate_data ⟨false, dt⟩ pop pngKeys = Except.ok (some out)) :
    ∃ m embT embE,
      out.clinical_train_emb = some embT ∧ out.clinical_test_emb = some embE ∧
      embT.length = out.train_labels_csv.length ∧
      embE.length = out.test_labels_csv.length ∧
      (∀ i, i < embT.length → ∃ j, j < pop.labels.length ∧
        out.train_labels_csv[i]? = some (pop.ids.getD j "", pop.labels.getD j false) ∧
        out.train_data_csv[i]? = some (pop.data.getD j []) ∧
        embT[i]? = some (embedRow m (pop.data.getD j []))) ∧
      (∀ i, i < embE.length → ∃ j, j < pop.labels.length ∧
        out.test_labels_csv[i]? = some (pop.ids.getD j "", pop.labels.getD j false) ∧
        out.test_data_csv[i]? = some (pop.data.getD j []) ∧
        embE[i]? = some (embedRow m (pop.data.getD j []))) := by
  have hcl : dt = DataType.both ∨ dt = DataType.clinical := by
    cases dt
    · right; rfl
    · exact absurd rfl hdt
    · left; rfl
  rw [generate_data_not_pregen] at hgen
  obtain ⟨s, hs, hout⟩ := except_map_ok _ _ _ hgen
  have hout2 := Option.some.inj hout
  rw [train_test_split] at hs
  obtain ⟨si, hsi, hrec⟩ := except_map_ok _ _ _ hs
  obtain ⟨htr, hte⟩ := stratifiedSplitIdx_ok pop.labels 42 si hsi
  rcases si with ⟨ti, ei⟩
  simp only at htr hte
  subst htr
  subst hte
  subst hrec
  subst hout2
  have hidxT : ∀ i ∈ trainIdxOf pop.labels 42, i < pop.labels.length :=
    fun i hi => lt_length_of_mem_trainIdxOf pop.labels 42 i hi
  have hidxE : ∀ i ∈ testIdxOf pop.labels 42, i < pop.labels.length :=
    fun i hi => lt_length_of_mem_testIdxOf pop.labels 42 i hi
  refine ⟨train_model (select pop.data [] (trainIdxOf pop.labels 42))
      (select pop.labels false (trainIdxOf pop.labels 42)),
    (clinicalEmbeddingStage
      { trainData := select pop.data [] (trainIdxOf pop.labels 42)
        testData := select pop.data [] (testIdxOf pop.labels 42)
        trainLabels := select pop.labels false (trainIdxOf pop.labels 42)
        testLabels := select pop.labels false (testIdxOf pop.labels 42)
        trainIds := select pop.ids "" (trainIdxOf pop.labels 42)
        testIds := select pop.ids "" (testIdxOf pop.labels 42) }).2.1,
    (clinicalEmbeddingStage
      { trainData := select pop.data [] (trainIdxOf pop.labels 42)
        testData := select pop.data [] (testIdxOf pop.labels 42)
        trainLabels := select pop.labels false (trainIdxOf pop.labels 42)
        testLabels := select pop.labels false (testIdxOf pop.labels 42)
        trainIds := select pop.ids "" (trainIdxOf pop.labels 42)
        testIds := select pop.ids "" (testIdxOf pop.labels 42) }).2.2,
    ?_, ?_, ?_, ?_, ?_, ?_⟩
  · show (if dt = DataType.both ∨ dt = DataType.clinical then _ else none) = _
    rw [if_pos hcl]
  · show (if dt = DataType.both ∨ dt = DataType.clinical then _ else none) = _
    rw [if_pos hcl]
  · show (generate_embeddings _ (select pop.data [] (trainIdxOf pop.labels 42))).length =
      ((select pop.ids "" (trainIdxOf pop.labels 42)).zip
        (select pop.labels false (trainIdxOf pop.labels 42))).length
    rw [generate_embeddings, List.length_map, List.length_zip, length_select,
      length_select, length_select]
    omega
  · show (generate_embeddings _ (select pop.data [] (testIdxOf pop.labels 42))).length =
      ((select pop.ids "" (testIdxOf pop.labels 42)).zip
        (select pop.labels false (testIdxOf pop.labels 42))).length
    rw [generate_embeddings, List.length_map, List.length_zip, length_select,
      length_select, length_select]
    omega
  · intro i hi
    have hi2 : i < (trainIdxOf pop.labels 42).length := by
      simpa only [clinicalEmbeddingStage, generate_embeddings, List.length_map,
        length_select] using hi
    exact select_zip_alignment pop (trainIdxOf pop.labels 42) hidxT _ i hi2
  · intro i hi
    have hi2 : i < (testIdxOf pop.labels 42).length := by
      simpa only [clinicalEmbeddingStage, generate_embeddings, List.length_map,
        length_select] using hi
    exact select_zip_alignment pop (testIdxOf pop.labels 42) hidxE _ i hi2

theorem generate_data_persists_aligned_rows_witness :
    ∃ out, generate_data ⟨false, DataType.clinical⟩
        ⟨[[1], [2], [3], [4], [5], [6]], [true, true, true, false, false, false],
          ["p1", "p2", "p3", "p4", "p5", "p6"]⟩ [] = Except.ok (some out) ∧
      ∃ m embT embE,
        out.clinical_train_emb = some embT ∧ out.clinical_test_emb = some embE ∧
        embT.length = out.train_labels_csv.length ∧
        embE.length = out.test_labels_csv.length ∧
        (∀ i, i < embT.length → ∃ j, j < ([true, true, true, false, false, false] : List Lbl).length ∧
          out.train_labels_csv[i]? =
            some ((["p1", "p2", "p3", "p4", "p5", "p6"] : List PatientId).getD j "",
              ([true, true, true, false, false, false] : List Lbl).getD j false) ∧
          out.train_data_csv[i]? =
            some (([[1], [2], [3], [4], [5], [6]] : List Feat).getD j []) ∧
          embT[i]? = some (embedRow m (([[1], [2], [3], [4], [5], [6]] : List Feat).getD j []))) ∧
        (∀ i, i < embE.length → ∃ j, j < ([true, true, true, false, false, false] : List Lbl).length ∧
          out.test_labels_csv[i]? =
            some ((["p1", "p2", "p3", "p4", "p5", "p6"] : List PatientId).getD j "",
              ([true, true, true, false, false, false] : List Lbl).getD j false) ∧
          out.test_data_csv[i]? =
            some (([[1], [2], [3], [4], [5], [6]] : List Feat).getD j []) ∧
          embE[i]? = some (embedRow m (([[1], [2], [3], [4], [5], [6]] : List Feat).getD j []))) := by
  rcases hE : generate_data ⟨false, DataType.clinical⟩
      ⟨[[1], [2], [3], [4], [5], [6]], [true, true, true, false, false, false],
        ["p1", "p2", "p3", "p4", "p5", "p6"]⟩ [] with e | o
  · rw [generate_data_not_pregen] at hE
    have hok : splitOk [true, true, true, false, false, false] = true := by decide
    rw [train_test_split, stratifiedSplitIdx, if_pos hok] at hE
    simp [Except.map] at hE
  · rcases o with _ | out
    · rw [generate_data_not_pregen] at hE
      have hok : splitOk [true, true, true, false, false, false] = true := by decide
      rw [train_test_split, stratifiedSplitIdx, if_pos hok] at hE
      simp [Except.map] at hE
    · exact ⟨out, rfl,
        generate_data_persists_aligned_rows DataType.clinical _ [] out (by decide) hE⟩

end Pipeline
